import Mathlib

/-!
Shallow embedding of the `parse_options` C++ library
(`src/parse_options.hpp`): option records with prefix matching,
istringstream-style value scanning, the `OptionParser::parse` loop,
`non_option_args` and the `usage` formatter.

Modelling conventions:
* C++ strings are Lean `String` (a structure over `List Char`); scanning
  works on the underlying `List Char`.
* The caller-supplied destinations (`dst_ptr_`) are modelled as one store
  cell per registered option, held in `ParserState.store`; a null
  `dst_ptr_` is `hasDst = false` (the cell is then never written).
* C++ exceptions are `Except`; a thrown error carries the parser state at
  the throw site, mirroring the in-place mutations that an exception
  leaves behind.
* `int` overflow in `istream >> int` (which would set `failbit`) is not
  modelled: values are unbounded `Int`.  No claim below depends on it.
-/

namespace ParseOpts

/-- The five error kinds of §7 (the C++ code throws
`std::invalid_argument` with a distinguishing message for each). -/
inductive ErrKind where
  | MissingArgument
  | EmptyValue
  | TooManyArguments
  | ParseFailure
  | UnrecognizedOption
deriving DecidableEq, Repr

/-- The destination kinds used by the claims: the boolean switch
(`SwitchOption`), `ValueOption<int>` and `ValueOption<std::string>`. -/
inductive OptKind where
  | switch
  | intOpt
  | strOpt
deriving DecidableEq, Repr

/-- A destination value. -/
inductive Val where
  | vBool : Bool → Val
  | vInt : Int → Val
  | vStr : String → Val
deriving DecidableEq, Repr

/-- One registered option: `OptionRecord` (name, description,
has-parameter flag derived from the destination type) plus whether the
destination pointer is non-null. -/
structure OptionRecord where
  name : String
  description : String
  kind : OptKind
  hasDst : Bool
deriving DecidableEq, Repr

/-- `has_parameter_` is set at construction to `not is_same<bool, T>`;
`add<bool>` always builds a `SwitchOption`, so it is exactly
"not a switch". -/
def OptionRecord.has_parameter (o : OptionRecord) : Bool :=
  match o.kind with
  | .switch => false
  | .intOpt => true
  | .strOpt => true

/-- `OptionRecord::matches`: `name_.compare(0, arg_str.size(), arg_str.data()) == 0`
compares the first `arg_str.size()` characters of `name_` with the whole
candidate, i.e. it holds iff the candidate is a byte-wise prefix of the
registered name (and is false whenever the candidate is longer). -/
def OptionRecord.matches (o : OptionRecord) (cand : String) : Bool :=
  cand.data.isPrefixOf o.name.data

/-- The whitespace characters of the default C locale, as classified by
`istream` formatted extraction. -/
def isWsp (c : Char) : Bool :=
  c = ' ' || c = '\t' || c = '\n' || c = '\x0b' || c = '\x0c' || c = '\r'

/-- Result of one `is >> parsed_value` step: remaining characters,
`eofbit`, `failbit`, extracted value. -/
structure ExtractResult (α : Type) where
  rest : List Char
  eofbit : Bool
  failbit : Bool
  val : α
deriving DecidableEq, Repr

/-- Decimal digit string to integer. -/
def digitsToInt (l : List Char) : Int :=
  l.foldl (fun a c => a * 10 + ((c.toNat : Int) - 48)) 0

/-- `is >> parsed_value` for `int` (default `skipws | dec` flags): skip
whitespace (failing at end-of-input), then an optional sign and decimal
digits; no digits sets `failbit`; reaching the end sets `eofbit`. -/
def extractInt (l : List Char) : ExtractResult Int :=
  match l.dropWhile isWsp with
  | [] => ⟨[], true, true, 0⟩
  | c :: cs =>
    let signAndRest : Int × List Char :=
      if c = '-' then (-1, cs) else if c = '+' then (1, cs) else (1, c :: cs)
    let digs := signAndRest.2.takeWhile Char.isDigit
    let r2 := signAndRest.2.dropWhile Char.isDigit
    if digs.isEmpty then ⟨signAndRest.2, false, true, 0⟩
    else ⟨r2, r2.isEmpty, false, signAndRest.1 * digitsToInt digs⟩

/-- `is >> parsed_value` for `std::string`: skip whitespace (failing at
end-of-input), then take the maximal run of non-whitespace characters. -/
def extractStr (l : List Char) : ExtractResult (List Char) :=
  match l.dropWhile isWsp with
  | [] => ⟨[], true, true, []⟩
  | c :: cs =>
    let r2 := (c :: cs).dropWhile (fun d => !isWsp d)
    ⟨r2, r2.isEmpty, false, (c :: cs).takeWhile (fun d => !isWsp d)⟩

/-- The `while (is.good()) { if (is.peek() != EOF) is >> parsed_value; else break; num_read += 1; }`
loop of `ValueOption<T>::parse`.  Returns `(failbit, num_read, parsed_value)`;
`eofbit` alone never reaches the post-loop `is.fail()` test, so only
`failbit` is reported.  The flag test at the loop head is equivalent to
testing the flags of the extraction just performed (a fresh
`istringstream` starts with no flags), which makes the recursion
structural in `fuel`; `fuel = length + 1` is enough because every
extraction that leaves the stream good consumes at least one character. -/
def scanLoop {α : Type} (ext : List Char → ExtractResult α) :
    Nat → List Char → Nat → α → Bool × Nat × α
  | 0, _, n, last => (false, n, last)
  | _ + 1, [], n, last => (false, n, last)
  | fuel + 1, c :: cs, n, _last =>
    let r := ext (c :: cs)
    if r.failbit || r.eofbit then (r.failbit, n + 1, r.val)
    else scanLoop ext fuel r.rest (n + 1) r.val

/-- `ValueOption<T>::parse`: `nullptr` means "missing argument"; otherwise
run the scanning loop and classify by `failbit` and `num_read`, exactly in
the order of the C++ `if` chain. -/
def valueParse {α : Type} (ext : List Char → ExtractResult α) (dflt : α)
    (value : Option String) : Except ErrKind α :=
  match value with
  | none => .error .MissingArgument
  | some v =>
    let l := v.data
    let r := scanLoop ext (l.length + 1) l 0 dflt
    if !r.1 then
      if r.2.1 = 1 then .ok r.2.2
      else if 1 < r.2.1 then .error .TooManyArguments
      else .error .EmptyValue
    else .error .ParseFailure

/-- Type-directed coercion of one raw token (`OptionRecord::parse`
dispatch): `SwitchOption::parse` ignores the token and never fails;
the scalar variants run `ValueOption<T>::parse`. -/
def coerce (k : OptKind) (value : Option String) : Except ErrKind Val :=
  match k with
  | .switch => .ok (.vBool true)
  | .intOpt => (valueParse extractInt 0 value).map Val.vInt
  | .strOpt => (valueParse extractStr [] value).map (fun w => Val.vStr (String.mk w))

/-- Parser session state: the destination store (one cell per registered
option, registration order) and the accumulated `non_option_args_`. -/
structure ParserState where
  store : List Val
  args : List String
deriving DecidableEq, Repr

/-- Writing through `dst_ptr_`: a null pointer (`hasDst = false`) means
the parsed value is silently discarded. -/
def writeDst (st : ParserState) (idx : Nat) (o : OptionRecord) (v : Val) : ParserState :=
  if o.hasDst then { st with store := st.store.set idx v } else st

/-- The registry scan of `OptionParser::parse` for one option token: walk
the registered options in registration order; for each whose name the
candidate prefixes, either consume the next argv slot (when the option
requires a parameter and a next slot exists — then `break`), or coerce
with no token and keep scanning.  Returns the updated state, the `found`
flag, and whether the next slot was consumed. -/
def scanRegistry : List OptionRecord → Nat → String → Option String →
    ParserState → Bool → Except (ErrKind × ParserState) (ParserState × Bool × Bool)
  | [], _, _, _, st, found => .ok (st, found, false)
  | o :: rest, idx, cand, next, st, found =>
    if o.matches cand then
      if o.has_parameter && next.isSome then
        match coerce o.kind next with
        | .ok v => .ok (writeDst st idx o v, true, true)
        | .error e => .error (e, st)
      else
        match coerce o.kind none with
        | .ok v => scanRegistry rest (idx + 1) cand next (writeDst st idx o v) true
        | .error e => .error (e, st)
    else scanRegistry rest (idx + 1) cand next st found

/-- A token is an option reference iff its first character is `'-'`
(`pp[0] == '-'` on a non-empty token). -/
def isOptTok (t : String) : Bool :=
  match t.data with
  | [] => false
  | c :: _ => c = '-'

/-- Strip one leading dash, or two when the token starts with `"--"`
(`pi = 1`, bumped to `2` when `1 < plen and pp[1] == '-'`), to obtain the
candidate name. -/
def candidateOf (t : String) : String :=
  match t.data with
  | [] => t
  | c0 :: rest0 =>
    if c0 = '-' then
      match rest0 with
      | [] => String.mk rest0
      | c1 :: rest1 => if c1 = '-' then String.mk rest1 else String.mk rest0
    else t

/-- Handling of one option token: run the registry scan; if no option
matched, fail with `UnrecognizedOption`.  Returns the new state and
whether the next argv slot was consumed as a value. -/
def stepOption (opts : List OptionRecord) (t : String) (next : Option String)
    (st : ParserState) : Except (ErrKind × ParserState) (ParserState × Bool) :=
  match scanRegistry opts 0 (candidateOf t) next st false with
  | .error e => .error e
  | .ok (st', found, consumed) =>
    if found then .ok (st', consumed) else .error (.UnrecognizedOption, st')

/-- The argv walk of `OptionParser::parse`, over the tokens after the
program name: empty tokens are skipped, dash tokens are resolved through
the registry (possibly consuming the following slot), anything else is
appended to `non_option_args_`.  The two-token pattern makes the
"next slot exists" test (`ii + 1 < argc`) structural. -/
def parseTokens (opts : List OptionRecord) :
    List String → ParserState → Except (ErrKind × ParserState) ParserState
  | [], st => .ok st
  | [t], st =>
    if t = "" then .ok st
    else if isOptTok t then
      match stepOption opts t none st with
      | .error e => .error e
      | .ok (st', _) => .ok st'
    else .ok { st with args := st.args ++ [t] }
  | t :: v :: rest, st =>
    if t = "" then parseTokens opts (v :: rest) st
    else if isOptTok t then
      match stepOption opts t (some v) st with
      | .error e => .error e
      | .ok (st', consumed) =>
        if consumed then parseTokens opts rest st'
        else parseTokens opts (v :: rest) st'
    else parseTokens opts (v :: rest) { st with args := st.args ++ [t] }

/-- `OptionParser::parse(argc, argv)`: the walk starts at index 1
(element 0 is the program name). -/
def parse (opts : List OptionRecord) (argv : List String) (st : ParserState) :
    Except (ErrKind × ParserState) ParserState :=
  parseTokens opts (argv.drop 1) st

/-- `OptionParser::non_option_args`. -/
def non_option_args (st : ParserState) : List String :=
  st.args

/-- One line (or two) of `usage()` for a single option: two spaces, `--`,
the name; pad to the break column 20 when at least one alignment space is
needed and positive, otherwise a newline plus 20 spaces; then the
description and a newline. -/
def usageEntry (o : OptionRecord) : String :=
  "  --" ++ o.name ++
    (if 0 < (20 : Int) - ((o.name.length : Int) + 4) then
      String.mk (List.replicate ((20 : Int) - ((o.name.length : Int) + 4)).toNat ' ')
     else "\n" ++ String.mk (List.replicate 20 ' ')) ++
    o.description ++ "\n"

/-- `OptionParser::usage`: the session description, a blank line,
`OPTIONS:`, a blank line, then the per-option entries appended in
registration order. -/
def usage (desc : String) (opts : List OptionRecord) : String :=
  opts.foldl (fun u o => u ++ usageEntry o) (desc ++ "\n\nOPTIONS:\n\n")

/-! Spec-side definitions, written from the specification's words; the
refinement theorems below compare them with the embedded code. -/

/-- Spec-side: in a successful run, an option token's candidate consumes
the following argv slot iff some registered option it matches requires a
parameter. -/
def consumesNext (opts : List OptionRecord) (cand : String) : Bool :=
  opts.any (fun o => o.matches cand && o.has_parameter)

/-- Spec-side description of the positional arguments of one parse pass,
following the claim: the non-empty tokens that do not begin with a dash
and are not consumed as option values, in left-to-right order. -/
def positionalsSpec (opts : List OptionRecord) : List String → List String
  | [] => []
  | [t] => if t = "" then [] else if isOptTok t then [] else [t]
  | t :: v :: rest =>
    if t = "" then positionalsSpec opts (v :: rest)
    else if isOptTok t then
      if consumesNext opts (candidateOf t) then positionalsSpec opts rest
      else positionalsSpec opts (v :: rest)
    else t :: positionalsSpec opts (v :: rest)

/-- Spec-side: the candidate names of the tokens classified as option
references during one (successful) parse pass — the dash-stripped tokens,
skipping tokens consumed as option values. -/
def candidatesSpec (opts : List OptionRecord) : List String → List String
  | [] => []
  | [t] => if t = "" then [] else if isOptTok t then [candidateOf t] else []
  | t :: v :: rest =>
    if t = "" then candidatesSpec opts (v :: rest)
    else if isOptTok t then
      candidateOf t ::
        (if consumesNext opts (candidateOf t) then candidatesSpec opts rest
         else candidatesSpec opts (v :: rest))
    else candidatesSpec opts (v :: rest)

/-- Spec-side: the registry entries coerced for one option token, with
their registration indices: every matching entry is coerced, in order,
until (and including) the first matching entry that takes a parameter
while a next slot exists — the `break` of the C++ loop. -/
def coercedWrites (cand : String) (next : Option String) :
    List OptionRecord → Nat → List (Nat × OptionRecord)
  | [], _ => []
  | o :: rest, idx =>
    if o.matches cand then
      if o.has_parameter && next.isSome then [(idx, o)]
      else (idx, o) :: coercedWrites cand next rest (idx + 1)
    else coercedWrites cand next rest (idx + 1)

/-- Spec-side: apply the writes of `coercedWrites` to a store.  The
parameter-taking entry is coerced with the next slot, the others with no
token; the fallback value of the failure branch is never reached in a
successful run. -/
def applyWrites (next : Option String) : List Val → List (Nat × OptionRecord) → List Val
  | store, [] => store
  | store, (i, o) :: rest =>
    let v := match coerce o.kind (if o.has_parameter && next.isSome then next else none) with
      | .ok w => w
      | .error _ => Val.vBool true
    applyWrites next (if o.hasDst then store.set i v else store) rest

/-! Concrete fixtures, taken from the repository's test cases. -/

/-- An integer option named `integer`, as in the error-handling tests. -/
def integerOpt : OptionRecord := ⟨"integer", "An integer option", .intOpt, true⟩

/-- A string option named `string`. -/
def stringOpt : OptionRecord := ⟨"string", "A string value", .strOpt, true⟩

/-- A switch named `missing`, as in the `found option instead` test. -/
def missingSwitch : OptionRecord := ⟨"missing", "A test boolean named missing", .switch, true⟩

/-- A switch named `ab`; `"a"` and `"ab"` are candidates matching it. -/
def abSwitch : OptionRecord := ⟨"ab", "first switch", .switch, true⟩

/-- A switch named `abc`; `"a"`, `"ab"` and `"abc"` all match it. -/
def abcSwitch : OptionRecord := ⟨"abc", "second switch", .switch, true⟩

/-- An integer option named `ab`. -/
def abIntOpt : OptionRecord := ⟨"ab", "first int", .intOpt, true⟩

/-- An integer option named `abc`. -/
def abcIntOpt : OptionRecord := ⟨"abc", "second int", .intOpt, true⟩

/-- Initial state for the single integer option: destination initialized
to `0` by the caller. -/
def stInt0 : ParserState := ⟨[Val.vInt 0], []⟩

/-- Initial state for the single string option. -/
def stStr0 : ParserState := ⟨[Val.vStr ""], []⟩

/-- Initial state for two integer options. -/
def stAb0 : ParserState := ⟨[Val.vInt 0, Val.vInt 0], []⟩

/-- Initial state for two switches. -/
def stSw0 : ParserState := ⟨[Val.vBool false, Val.vBool false], []⟩

/-- The three options of the `Check Usage` test case. -/
def usageOne : OptionRecord := ⟨"one", "This is the first option", .switch, true⟩

/-- Second usage-test option. -/
def usageTwo : OptionRecord := ⟨"two", "This is the second option", .switch, true⟩

/-- Third usage-test option, long enough to overflow the break column. -/
def usageTwenty : OptionRecord := ⟨"twenty_letters_long", "This is the third option", .switch, true⟩

/-- The boolean option of the simple integration test. -/
def booleanSwitch : OptionRecord := ⟨"boolean", "A boolean option", .switch, true⟩

/-- Initial state for the registry `[integerOpt, missingSwitch]`. -/
def stIM0 : ParserState := ⟨[Val.vInt 0, Val.vBool false], []⟩

end ParseOpts

deriving instance DecidableEq for Except

namespace ParseOpts

/-! Helper lemmas about the registry scan and the destination writes. -/

/-- Writing through a destination never touches the positional list. -/
theorem writeDst_args (st : ParserState) (idx : Nat) (o : OptionRecord) (v : Val) :
    (writeDst st idx o v).args = st.args := by
  unfold writeDst; split <;> rfl

/-- Coercion with no supplied token succeeds only for switches, and then
produces `true`. -/
theorem coerce_none_ok {k : OptKind} {v : Val} (h : coerce k none = .ok v) :
    k = .switch ∧ v = .vBool true := by
  cases k with
  | switch => simp [coerce] at h; exact ⟨rfl, h.symm⟩
  | intOpt => simp [coerce, valueParse, Except.map] at h
  | strOpt => simp [coerce, valueParse, Except.map] at h

/-- An option whose coercion with no token succeeds takes no parameter. -/
theorem coerce_none_ok_no_param {o : OptionRecord} {v : Val}
    (h : coerce o.kind none = .ok v) : o.has_parameter = false := by
  rcases coerce_none_ok h with ⟨hk, _⟩
  simp [OptionRecord.has_parameter, hk]

/-- The registry scan never touches the positional list. -/
theorem scanRegistry_args {opts : List OptionRecord} {idx : Nat} {cand : String}
    {next : Option String} {st : ParserState} {found : Bool}
    {st' : ParserState} {f c : Bool}
    (h : scanRegistry opts idx cand next st found = .ok (st', f, c)) :
    st'.args = st.args := by
  induction opts generalizing idx st found with
  | nil =>
    simp only [scanRegistry] at h
    cases h
    rfl
  | cons o rest ih =>
    simp only [scanRegistry] at h
    split at h
    · split at h
      · split at h
        · cases h
          exact writeDst_args ..
        · cases h
      · split at h
        · exact (ih h).trans (writeDst_args ..)
        · cases h
    · exact ih h

/-- In a successful scan, the consumed flag is exactly: a next slot
exists and some matching option requires a parameter. -/
theorem scanRegistry_consumed {opts : List OptionRecord} {idx : Nat} {cand : String}
    {next : Option String} {st : ParserState} {found : Bool}
    {st' : ParserState} {f c : Bool}
    (h : scanRegistry opts idx cand next st found = .ok (st', f, c)) :
    c = (next.isSome && consumesNext opts cand) := by
  induction opts generalizing idx st found with
  | nil =>
    simp only [scanRegistry] at h
    cases h
    simp [consumesNext]
  | cons o rest ih =>
    simp only [scanRegistry] at h
    split at h
    · rename_i hm
      split at h
      · rename_i hp
        simp only [Bool.and_eq_true] at hp
        split at h
        · cases h
          simp [consumesNext, hm, hp.1, hp.2]
        · cases h
      · split at h
        · rename_i v hv
          have hnp := coerce_none_ok_no_param hv
          rw [ih h]
          simp [consumesNext, hm, hnp]
        · cases h
    · rename_i hm
      rw [ih h]
      simp [consumesNext, hm]

/-- In a successful scan, the found flag is exactly: the incoming flag or
some registered option matches the candidate. -/
theorem scanRegistry_found {opts : List OptionRecord} {idx : Nat} {cand : String}
    {next : Option String} {st : ParserState} {found : Bool}
    {st' : ParserState} {f c : Bool}
    (h : scanRegistry opts idx cand next st found = .ok (st', f, c)) :
    f = (found || opts.any (fun o => o.matches cand)) := by
  induction opts generalizing idx st found with
  | nil =>
    simp only [scanRegistry] at h
    cases h
    simp
  | cons o rest ih =>
    simp only [scanRegistry] at h
    split at h
    · rename_i hm
      split at h
      · split at h
        · cases h
          simp [hm]
        · cases h
      · split at h
        · rw [ih h]
          simp [hm]
        · cases h
    · rename_i hm
      rw [ih h]
      simp [hm]

end ParseOpts

namespace ParseOpts

/-- A destination write at one index leaves every other index unchanged. -/
theorem writeDst_store_ne (st : ParserState) (idx : Nat) (o : OptionRecord) (v : Val)
    {j : Nat} (hj : j ≠ idx) : (writeDst st idx o v).store[j]? = st.store[j]? := by
  unfold writeDst
  split
  · exact List.getElem?_set_ne (fun h => hj h.symm)
  · rfl

/-- Frame property of the registry scan: a successful scan leaves every
store cell unchanged whose position does not carry an option matched by
the candidate. -/
theorem scanRegistry_frame {opts : List OptionRecord} {idx : Nat} {cand : String}
    {next : Option String} {st : ParserState} {found : Bool}
    {st' : ParserState} {f c : Bool}
    (h : scanRegistry opts idx cand next st found = .ok (st', f, c)) (j : Nat)
    (hj : ∀ k, (hk : k < opts.length) → j = idx + k → opts[k].matches cand = false) :
    st'.store[j]? = st.store[j]? := by
  induction opts generalizing idx st found with
  | nil =>
    simp only [scanRegistry] at h
    cases h
    rfl
  | cons o rest ih =>
    have hjrest : ∀ k, (hk : k < rest.length) → j = (idx + 1) + k →
        rest[k].matches cand = false := by
      intro k hk hjk
      have := hj (k + 1) (by simpa using Nat.succ_lt_succ hk) (by omega)
      simpa using this
    simp only [scanRegistry] at h
    split at h
    · rename_i hm
      have hji : j ≠ idx := by
        intro hji
        have h0 := hj 0 (by simp) (by omega)
        simp only [List.getElem_cons_zero] at h0
        rw [h0] at hm
        cases hm
      split at h
      · split at h
        · cases h
          exact writeDst_store_ne st idx o _ hji
        · cases h
      · split at h
        · exact (ih h hjrest).trans (writeDst_store_ne st idx o _ hji)
        · cases h
    · exact ih h hjrest

end ParseOpts

namespace ParseOpts

/-- Full characterization of the store after a successful registry scan:
exactly the spec-side `coercedWrites` entries are written. -/
theorem scanRegistry_writes {opts : List OptionRecord} {idx : Nat} {cand : String}
    {next : Option String} {st : ParserState} {found : Bool}
    {st' : ParserState} {f c : Bool}
    (h : scanRegistry opts idx cand next st found = .ok (st', f, c)) :
    st'.store = applyWrites next st.store (coercedWrites cand next opts idx) := by
  induction opts generalizing idx st found with
  | nil =>
    simp only [scanRegistry] at h
    cases h
    simp [coercedWrites, applyWrites]
  | cons o rest ih =>
    simp only [scanRegistry] at h
    split at h
    · rename_i hm
      split at h
      · rename_i hp
        split at h
        · rename_i v hv
          cases h
          simp only [coercedWrites, hm, if_pos, hp, if_true]
          simp [applyWrites, hp, hv, writeDst]
          split <;> rfl
        · cases h
      · rename_i hp
        split at h
        · rename_i v hv
          rw [ih h]
          have hp' : (o.has_parameter && next.isSome) = false := by
            cases hEq : (o.has_parameter && next.isSome) with
            | false => rfl
            | true => exact absurd hEq hp
          simp only [coercedWrites, hm, if_true, hp', Bool.false_eq_true, if_false]
          simp [applyWrites, hp', hv, writeDst]
          split <;> rfl
        · cases h
    · rename_i hm
      rw [ih h]
      have hm' : o.matches cand = false := by
        cases hEq : o.matches cand with
        | false => rfl
        | true => exact absurd hEq hm
      simp [coercedWrites, hm']

end ParseOpts

namespace ParseOpts

/-- A registry scan that succeeds with no next slot behaves identically
when a next slot is supplied: all its matches were switches, so the slot
is not consumed. -/
theorem scanRegistry_none_ok {opts : List OptionRecord} {idx : Nat} {cand : String}
    {st : ParserState} {found : Bool} {st' : ParserState} {f c : Bool} (v : String)
    (h : scanRegistry opts idx cand none st found = .ok (st', f, c)) :
    scanRegistry opts idx cand (some v) st found = .ok (st', f, c) ∧ c = false := by
  induction opts generalizing idx st found with
  | nil =>
    simp only [scanRegistry] at h ⊢
    cases h
    exact ⟨rfl, rfl⟩
  | cons o rest ih =>
    simp only [scanRegistry] at h ⊢
    split at h
    · rename_i hm
      rw [if_pos hm]
      have hnone : (o.has_parameter && (none : Option String).isSome) = false := by simp
      rw [hnone] at h
      simp only [Bool.false_eq_true, if_false] at h
      split at h
      · rename_i w hw
        have hnp := coerce_none_ok_no_param hw
        have hsome : (o.has_parameter && (some v).isSome) = false := by simp [hnp]
        rw [hsome]
        simp only [Bool.false_eq_true, if_false, hw]
        exact ih h
      · cases h
    · rename_i hm
      rw [if_neg hm]
      exact ih h

/-- `stepOption` never touches the positional list. -/
theorem stepOption_args {opts : List OptionRecord} {t : String} {next : Option String}
    {st st' : ParserState} {c : Bool}
    (h : stepOption opts t next st = .ok (st', c)) : st'.args = st.args := by
  unfold stepOption at h
  split at h
  · cases h
  · rename_i st'' found consumed heq
    split at h
    · cases h
      exact scanRegistry_args heq
    · cases h

/-- In a successful `stepOption`, the consumed flag is exactly
`next.isSome && consumesNext`. -/
theorem stepOption_consumed {opts : List OptionRecord} {t : String} {next : Option String}
    {st st' : ParserState} {c : Bool}
    (h : stepOption opts t next st = .ok (st', c)) :
    c = (next.isSome && consumesNext opts (candidateOf t)) := by
  unfold stepOption at h
  split at h
  · cases h
  · rename_i st'' found consumed heq
    split at h
    · cases h
      exact scanRegistry_consumed heq
    · cases h

/-- A `stepOption` that succeeds with no next slot succeeds identically
with one, and does not consume it. -/
theorem stepOption_none_ok {opts : List OptionRecord} {t : String}
    {st st' : ParserState} {c : Bool} (v : String)
    (h : stepOption opts t none st = .ok (st', c)) :
    stepOption opts t (some v) st = .ok (st', false) ∧ c = false := by
  unfold stepOption at h ⊢
  split at h
  · cases h
  · rename_i st'' found consumed heq
    obtain ⟨h2, hc⟩ := scanRegistry_none_ok v heq
    rw [h2]
    split at h
    · rename_i hf
      simp only [if_pos hf]
      cases h
      subst hc
      exact ⟨rfl, rfl⟩
    · cases h

/-- Induction principle following the token walk of `parseTokens`:
nil, a single token, and a token followed by a potential value slot. -/
theorem twoStepInduction {motive : List String → Prop} (h0 : motive [])
    (h1 : ∀ t, motive [t])
    (h2 : ∀ t v rest, motive (v :: rest) → motive rest → motive (t :: v :: rest)) :
    ∀ l, motive l
  | [] => h0
  | [t] => h1 t
  | t :: v :: rest =>
    h2 t v rest (twoStepInduction h0 h1 h2 (v :: rest)) (twoStepInduction h0 h1 h2 rest)

/-- Definitional equation of `parseTokens` on the empty token list. -/
theorem parseTokens_nil (opts : List OptionRecord) (st : ParserState) :
    parseTokens opts [] st = .ok st := rfl

/-- Definitional equation of `parseTokens` on a single remaining token
(no next argv slot). -/
theorem parseTokens_one (opts : List OptionRecord) (t : String) (st : ParserState) :
    parseTokens opts [t] st =
      (if t = "" then .ok st
       else if isOptTok t then
         match stepOption opts t none st with
         | .error e => .error e
         | .ok (st', _) => .ok st'
       else .ok { st with args := st.args ++ [t] }) := rfl

/-- Definitional equation of `parseTokens` on a token with a following
slot. -/
theorem parseTokens_two (opts : List OptionRecord) (t v : String) (rest : List String)
    (st : ParserState) :
    parseTokens opts (t :: v :: rest) st =
      (if t = "" then parseTokens opts (v :: rest) st
       else if isOptTok t then
         match stepOption opts t (some v) st with
         | .error e => .error e
         | .ok (st', consumed) =>
           if consumed then parseTokens opts rest st'
           else parseTokens opts (v :: rest) st'
       else parseTokens opts (v :: rest) { st with args := st.args ++ [t] }) := rfl

/-- Composition: a successful parse of a token prefix continues on the
remaining tokens from the reached state.  The boundary case is covered by
`stepOption_none_ok`: a prefix whose last token succeeded without a next
slot behaves the same when the suffix supplies one. -/
theorem parseTokens_append (opts : List OptionRecord) (pre : List String) :
    ∀ (st st₁ : ParserState), parseTokens opts pre st = .ok st₁ →
    ∀ suf, parseTokens opts (pre ++ suf) st = parseTokens opts suf st₁ := by
  induction pre using twoStepInduction with
  | h0 =>
    intro st st₁ h suf
    rw [parseTokens_nil] at h
    cases h
    simp
  | h1 t =>
    intro st st₁ h suf
    rw [parseTokens_one] at h
    cases suf with
    | nil =>
      simp only [List.append_nil]
      rw [parseTokens_nil, parseTokens_one]
      exact h
    | cons s suf' =>
      have hshape : [t] ++ s :: suf' = t :: s :: suf' := rfl
      rw [hshape, parseTokens_two]
      by_cases ht : t = ""
      · rw [if_pos ht] at h ⊢
        cases h
        rfl
      · rw [if_neg ht] at h ⊢
        by_cases hopt : isOptTok t = true
        · rw [if_pos hopt] at h ⊢
          cases heq : stepOption opts t none st with
          | error e =>
            rw [heq] at h
            cases h
          | ok p =>
            obtain ⟨st₂, c₂⟩ := p
            rw [heq] at h
            have h' : (Except.ok st₂ :
                Except (ErrKind × ParserState) ParserState) = .ok st₁ := h
            cases h'
            obtain ⟨h2, _⟩ := stepOption_none_ok s heq
            rw [h2]
            rfl
        · rw [if_neg hopt] at h ⊢
          cases h
          rfl
  | h2 t v rest ih1 ih2 =>
    intro st st₁ h suf
    rw [parseTokens_two] at h
    have hshape : (t :: v :: rest) ++ suf = t :: v :: (rest ++ suf) := rfl
    rw [hshape, parseTokens_two]
    by_cases ht : t = ""
    · rw [if_pos ht] at h ⊢
      exact ih1 st st₁ h suf
    · rw [if_neg ht] at h ⊢
      by_cases hopt : isOptTok t = true
      · rw [if_pos hopt] at h ⊢
        cases heq : stepOption opts t (some v) st with
        | error e =>
          rw [heq] at h
          cases h
        | ok p =>
          obtain ⟨st₂, c₂⟩ := p
          rw [heq] at h
          cases c₂ with
          | true =>
            have h' : parseTokens opts rest st₂ = .ok st₁ := h
            exact ih2 st₂ st₁ h' suf
          | false =>
            have h' : parseTokens opts (v :: rest) st₂ = .ok st₁ := h
            exact ih1 st₂ st₁ h' suf
      · rw [if_neg hopt] at h ⊢
        exact ih1 _ st₁ h suf

end ParseOpts

namespace ParseOpts

/-- An option token is never the empty string. -/
theorem isOptTok_ne_empty {t : String} (h : isOptTok t = true) : t ≠ "" := by
  intro he
  subst he
  exact absurd h (by decide)

/-- If some matching option takes a parameter, then in particular some
option matches. -/
theorem consumesNext_found {opts : List OptionRecord} {cand : String}
    (h : consumesNext opts cand = true) :
    opts.any (fun o => o.matches cand) = true := by
  simp only [consumesNext, List.any_eq_true, Bool.and_eq_true] at h ⊢
  obtain ⟨o, ho, hmo, _⟩ := h
  exact ⟨o, ho, hmo⟩

/-- The positional arguments appended by one successful parse pass are
exactly the spec-side positional tokens, in order. -/
theorem parseTokens_args (opts : List OptionRecord) (toks : List String) :
    ∀ (st st₁ : ParserState), parseTokens opts toks st = .ok st₁ →
    st₁.args = st.args ++ positionalsSpec opts toks := by
  induction toks using twoStepInduction with
  | h0 =>
    intro st st₁ h
    rw [parseTokens_nil] at h
    cases h
    simp [positionalsSpec]
  | h1 t =>
    intro st st₁ h
    rw [parseTokens_one] at h
    by_cases ht : t = ""
    · rw [if_pos ht] at h
      cases h
      simp [positionalsSpec, ht]
    · rw [if_neg ht] at h
      by_cases hopt : isOptTok t = true
      · rw [if_pos hopt] at h
        cases heq : stepOption opts t none st with
        | error e =>
          rw [heq] at h
          cases h
        | ok p =>
          obtain ⟨st₂, c₂⟩ := p
          rw [heq] at h
          have h' : (Except.ok st₂ :
              Except (ErrKind × ParserState) ParserState) = .ok st₁ := h
          cases h'
          have hargs := stepOption_args heq
          simp [positionalsSpec, ht, hopt, hargs]
      · rw [if_neg hopt] at h
        cases h
        simp [positionalsSpec, ht, hopt]
  | h2 t v rest ih1 ih2 =>
    intro st st₁ h
    rw [parseTokens_two] at h
    by_cases ht : t = ""
    · rw [if_pos ht] at h
      rw [ih1 st st₁ h]
      simp [positionalsSpec, ht]
    · rw [if_neg ht] at h
      by_cases hopt : isOptTok t = true
      · rw [if_pos hopt] at h
        cases heq : stepOption opts t (some v) st with
        | error e =>
          rw [heq] at h
          cases h
        | ok p =>
          obtain ⟨st₂, c₂⟩ := p
          rw [heq] at h
          have hargs := stepOption_args heq
          have hcons := stepOption_consumed heq
          cases c₂ with
          | true =>
            have h' : parseTokens opts rest st₂ = .ok st₁ := h
            have hcn : consumesNext opts (candidateOf t) = true := by
              simpa using hcons.symm
            rw [ih2 st₂ st₁ h', hargs]
            simp [positionalsSpec, ht, hopt, hcn]
          | false =>
            have h' : parseTokens opts (v :: rest) st₂ = .ok st₁ := h
            have hcn : consumesNext opts (candidateOf t) = false := by
              simpa using hcons.symm
            rw [ih1 st₂ st₁ h', hargs]
            simp [positionalsSpec, ht, hopt, hcn]
      · rw [if_neg hopt] at h
        have h' : parseTokens opts (v :: rest)
            { st with args := st.args ++ [t] } = .ok st₁ := h
        rw [ih1 _ st₁ h']
        simp [positionalsSpec, ht, hopt]

end ParseOpts

namespace ParseOpts

/-- Frame property of one option step: the store cell of a registered
option whose name the token's candidate does not prefix is unchanged. -/
theorem stepOption_frame {opts : List OptionRecord} {t : String} {next : Option String}
    {st st' : ParserState} {c : Bool}
    (h : stepOption opts t next st = .ok (st', c)) (i : Nat) (o : OptionRecord)
    (ho : opts[i]? = some o) (hm : o.matches (candidateOf t) = false) :
    st'.store[i]? = st.store[i]? := by
  unfold stepOption at h
  split at h
  · cases h
  · rename_i st'' found consumed heq
    split at h
    · cases h
      refine scanRegistry_frame heq i ?_
      intro k hk hik
      have hki : k = i := by omega
      subst hki
      have hoe : opts[k]? = some opts[k] := List.getElem?_eq_getElem hk
      rw [ho] at hoe
      cases hoe
      exact hm
    · cases h

/-- Frame property of a successful parse pass: the store cell of a
registered option matched by none of the pass's candidate names keeps its
initial value. -/
theorem parseTokens_frame (opts : List OptionRecord) (toks : List String) :
    ∀ (st st₁ : ParserState), parseTokens opts toks st = .ok st₁ →
    ∀ (i : Nat) (o : OptionRecord), opts[i]? = some o →
    (∀ cnd ∈ candidatesSpec opts toks, o.matches cnd = false) →
    st₁.store[i]? = st.store[i]? := by
  induction toks using twoStepInduction with
  | h0 =>
    intro st st₁ h i o ho hc
    rw [parseTokens_nil] at h
    cases h
    rfl
  | h1 t =>
    intro st st₁ h i o ho hc
    rw [parseTokens_one] at h
    by_cases ht : t = ""
    · rw [if_pos ht] at h
      cases h
      rfl
    · rw [if_neg ht] at h
      by_cases hopt : isOptTok t = true
      · rw [if_pos hopt] at h
        cases heq : stepOption opts t none st with
        | error e =>
          rw [heq] at h
          cases h
        | ok p =>
          obtain ⟨st₂, c₂⟩ := p
          rw [heq] at h
          have h' : (Except.ok st₂ :
              Except (ErrKind × ParserState) ParserState) = .ok st₁ := h
          cases h'
          have hcendm : o.matches (candidateOf t) = false := by
            apply hc
            simp [candidatesSpec, ht, hopt]
          exact stepOption_frame heq i o ho hcendm
      · rw [if_neg hopt] at h
        cases h
        rfl
  | h2 t v rest ih1 ih2 =>
    intro st st₁ h i o ho hc
    rw [parseTokens_two] at h
    by_cases ht : t = ""
    · rw [if_pos ht] at h
      refine ih1 st st₁ h i o ho ?_
      intro cnd hcnd
      apply hc
      simpa [candidatesSpec, ht] using hcnd
    · rw [if_neg ht] at h
      by_cases hopt : isOptTok t = true
      · rw [if_pos hopt] at h
        cases heq : stepOption opts t (some v) st with
        | error e =>
          rw [heq] at h
          cases h
        | ok p =>
          obtain ⟨st₂, c₂⟩ := p
          rw [heq] at h
          have hcons := stepOption_consumed heq
          have hhead : o.matches (candidateOf t) = false := by
            apply hc
            simp [candidatesSpec, ht, hopt]
          have hframe := stepOption_frame heq i o ho hhead
          cases c₂ with
          | true =>
            have h' : parseTokens opts rest st₂ = .ok st₁ := h
            have hcn : consumesNext opts (candidateOf t) = true := by
              simpa using hcons.symm
            refine (ih2 st₂ st₁ h' i o ho ?_).trans hframe
            intro cnd hcnd
            apply hc
            simp [candidatesSpec, ht, hopt, hcn]
            exact Or.inr hcnd
          | false =>
            have h' : parseTokens opts (v :: rest) st₂ = .ok st₁ := h
            have hcn : consumesNext opts (candidateOf t) = false := by
              simpa using hcons.symm
            refine (ih1 st₂ st₁ h' i o ho ?_).trans hframe
            intro cnd hcnd
            apply hc
            simp [candidatesSpec, ht, hopt, hcn]
            exact Or.inr hcnd
      · rw [if_neg hopt] at h
        have h' : parseTokens opts (v :: rest)
            { st with args := st.args ++ [t] } = .ok st₁ := h
        refine ih1 _ st₁ h' i o ho ?_
        intro cnd hcnd
        apply hc
        simpa [candidatesSpec, ht, hopt] using hcnd

end ParseOpts

namespace ParseOpts

/-- Rebuilding a string from its character data is the identity. -/
theorem stringMk_data (s : String) : String.mk s.data = s := rfl

/-- A string is empty exactly when its character data is. -/
theorem string_eq_empty_iff_data {s : String} : s = "" ↔ s.data = [] := by
  constructor
  · intro h
    subst h
    rfl
  · intro h
    have : String.mk s.data = String.mk [] := by rw [h]
    rw [stringMk_data] at this
    exact this

/-- A token formed by one dash before a name is an option token. -/
theorem isOptTok_one_dash (x : String) : isOptTok ("-" ++ x) = true := by
  have hd : ("-" ++ x).data = '-' :: x.data := by
    rw [String.data_append]
    rfl
  simp [isOptTok, hd]

/-- A token formed by two dashes before a name is an option token. -/
theorem isOptTok_two_dashes (x : String) : isOptTok ("--" ++ x) = true := by
  have hd : ("--" ++ x).data = '-' :: '-' :: x.data := by
    rw [String.data_append]
    rfl
  simp [isOptTok, hd]

/-- Candidate extraction strips both dashes of a `--name` token. -/
theorem candidateOf_two_dashes (x : String) : candidateOf ("--" ++ x) = x := by
  have hd : ("--" ++ x).data = '-' :: '-' :: x.data := by
    rw [String.data_append]
    rfl
  simp only [candidateOf, hd]
  simp [stringMk_data]

/-- Candidate extraction strips the single dash of a `-name` token when
the name itself does not begin with a dash. -/
theorem candidateOf_one_dash (x : String) (hx : x.data.head? ≠ some '-') :
    candidateOf ("-" ++ x) = x := by
  have hd : ("-" ++ x).data = '-' :: x.data := by
    rw [String.data_append]
    rfl
  simp only [candidateOf, hd]
  cases hxd : x.data with
  | nil =>
    simp [← hxd, stringMk_data]
  | cons c1 rest1 =>
    have hc1 : ¬ c1 = '-' := by
      rw [hxd] at hx
      simpa using hx
    simp [hc1, ← hxd, stringMk_data]

end ParseOpts

namespace ParseOpts

/-- Claim C8: any error aborts the parse pass at the failing token.  The
error state is exactly the state reached by the successfully processed
earlier tokens plus the failing step's own partial writes (no rollback),
and the result does not depend on the argv tokens after the failing token
and its potential value slot: any continuation supplying the same next
slot produces the identical error. -/
theorem c8_error_aborts_without_rollback (opts : List OptionRecord)
    (pre : List String) (t : String) (rest : List String)
    (st st₁ st₂ : ParserState) (e : ErrKind)
    (hpre : parseTokens opts pre st = .ok st₁)
    (hopt : isOptTok t = true)
    (hfail : stepOption opts t rest.head? st₁ = .error (e, st₂)) :
    parseTokens opts (pre ++ t :: rest) st = .error (e, st₂) ∧
    ∀ rest', rest'.head? = rest.head? →
      parseTokens opts (pre ++ t :: rest') st = .error (e, st₂) := by
  have ht : t ≠ "" := isOptTok_ne_empty hopt
  have main : ∀ rest', rest'.head? = rest.head? →
      parseTokens opts (pre ++ t :: rest') st = .error (e, st₂) := by
    intro rest' hh
    rw [parseTokens_append opts pre st st₁ hpre (t :: rest')]
    cases rest' with
    | nil =>
      have hnone : rest.head? = none := by simpa using hh.symm
      rw [hnone] at hfail
      rw [parseTokens_one, if_neg ht, if_pos hopt, hfail]
    | cons s rest'' =>
      have hsome : rest.head? = some s := by simpa using hh.symm
      rw [hsome] at hfail
      rw [parseTokens_two, if_neg ht, if_pos hopt, hfail]
  exact ⟨main rest rfl, main⟩

/-- Claim C4 (amended): for a scalar option, an empty raw token fails
with `EmptyValue` (nothing scanned), while a non-empty whitespace-only
raw token makes the first extraction set `failbit` and therefore fails
with `ParseFailure`, not `EmptyValue`. -/
theorem c4_empty_vs_whitespace (k : OptKind) (hk : k ≠ OptKind.switch) (s : String) :
    (s = "" → coerce k (some s) = .error .EmptyValue) ∧
    (s ≠ "" → (∀ ch ∈ s.data, isWsp ch = true) →
      coerce k (some s) = .error .ParseFailure) := by
  constructor
  · intro hs
    subst hs
    cases k with
    | switch => exact absurd rfl hk
    | intOpt => decide
    | strOpt => decide
  · intro hs hws
    obtain ⟨c, cs, hlc⟩ : ∃ c cs, s.data = c :: cs := by
      cases hd : s.data with
      | nil => exact absurd (string_eq_empty_iff_data.mpr hd) hs
      | cons c cs => exact ⟨c, cs, rfl⟩
    rw [hlc] at hws
    have hdrop : (c :: cs).dropWhile isWsp = [] := List.dropWhile_eq_nil_iff.mpr hws
    cases k with
    | switch => exact absurd rfl hk
    | intOpt =>
      have hext : extractInt (c :: cs) = ⟨[], true, true, 0⟩ := by
        simp [extractInt, hdrop]
      have hscan : scanLoop extractInt (cs.length + 1 + 1) (c :: cs) 0 0 = (true, 1, 0) := by
        simp [scanLoop, hext]
      simp [coerce, valueParse, hlc, hscan, Except.map]
    | strOpt =>
      have hext : extractStr (c :: cs) = ⟨[], true, true, []⟩ := by
        simp [extractStr, hdrop]
      have hscan : scanLoop extractStr (cs.length + 1 + 1) (c :: cs) 0 [] = (true, 1, []) := by
        simp [scanLoop, hext]
      simp [coerce, valueParse, hlc, hscan, Except.map]

/-- Claim C5 (amended): a string destination stores the raw token
verbatim only when the token is non-empty and contains no whitespace;
such a token is extracted whole in a single scan step and succeeds. -/
theorem c5_wordlike_token_stored_verbatim (s : String) (hs : s ≠ "")
    (hws : ∀ ch ∈ s.data, isWsp ch = false) :
    coerce .strOpt (some s) = .ok (.vStr s) := by
  obtain ⟨c, cs, hlc⟩ : ∃ c cs, s.data = c :: cs := by
    cases hd : s.data with
    | nil => exact absurd (string_eq_empty_iff_data.mpr hd) hs
    | cons c cs => exact ⟨c, cs, rfl⟩
  rw [hlc] at hws
  have hwc : isWsp c = false := hws c (by simp)
  have hndrop : (c :: cs).dropWhile isWsp = c :: cs := by
    simp [List.dropWhile_cons, hwc]
  have htake : (c :: cs).takeWhile (fun d => !isWsp d) = c :: cs :=
    List.takeWhile_eq_self_iff.mpr (by intro d hd; simp [hws d hd])
  have hdrop2 : (c :: cs).dropWhile (fun d => !isWsp d) = [] :=
    List.dropWhile_eq_nil_iff.mpr (by intro d hd; simp [hws d hd])
  have hext : extractStr (c :: cs) = ⟨[], true, false, c :: cs⟩ := by
    simp [extractStr, hndrop, htake, hdrop2]
  have hscan : scanLoop extractStr (cs.length + 1 + 1) (c :: cs) 0 [] = (false, 1, c :: cs) := by
    simp [scanLoop, hext]
  have hmk : String.mk (c :: cs) = s := by rw [← hlc, stringMk_data]
  simp [coerce, valueParse, hlc, hscan, hmk, Except.map]

end ParseOpts

namespace ParseOpts

/-- Claim C1: end-to-end behaviour of an integer option named `integer`:
`--integer 42` stores 42; `--integer one` fails with `ParseFailure`;
`--integer` as the last token fails with `MissingArgument`;
`--integer "1 2 3"` (one argv slot) fails with `TooManyArguments`;
`--integer ""` fails with `EmptyValue`. -/
theorem c1_integer_option_end_to_end :
    parse [integerOpt] ["program", "--integer", "42"] stInt0 =
      .ok ⟨[Val.vInt 42], []⟩ ∧
    parse [integerOpt] ["program", "--integer", "one"] stInt0 =
      .error (.ParseFailure, stInt0) ∧
    parse [integerOpt] ["program", "--integer"] stInt0 =
      .error (.MissingArgument, stInt0) ∧
    parse [integerOpt] ["program", "--integer", "1 2 3"] stInt0 =
      .error (.TooManyArguments, stInt0) ∧
    parse [integerOpt] ["program", "--integer", ""] stInt0 =
      .error (.EmptyValue, stInt0) := by
  decide

/-- Claim C2, counterexample: with options named `ab` then `abc`
registered (both integer), the candidate `ab` — a prefix of `abc` — is
routed to the option named `ab` (its destination, cell 0, is written),
while the full-name token `--abc` is routed to the option named `abc`
(cell 1): the tokens `--ab` and `--abc` do not route to the same
registered option, refuting the claim's universal routing consequence. -/
theorem c2_cex_prefix_routes_to_first :
    abIntOpt.matches "ab" = true ∧ abcIntOpt.matches "ab" = true ∧
    parse [abIntOpt, abcIntOpt] ["p", "--ab", "7"] stAb0 =
      .ok ⟨[Val.vInt 7, Val.vInt 0], []⟩ ∧
    parse [abIntOpt, abcIntOpt] ["p", "--abc", "9"] stAb0 =
      .ok ⟨[Val.vInt 0, Val.vInt 9], []⟩ := by
  decide

/-- Claim C2 (amended): `matches(candidate)` is true iff the candidate is
a byte-wise prefix of the registered name (the empty candidate matches
every option); `-x` and `--x` produce the same candidate `x` (hence route
identically), while a prefix token routes to the first matching option in
registration order, which need not be the option named `x`. -/
theorem c2_matches_prefix_and_candidates :
    (∀ (o : OptionRecord) (cand : String),
      o.matches cand = true ↔ cand.data <+: o.name.data) ∧
    (∀ o : OptionRecord, o.matches "" = true) ∧
    (∀ x : String,
      isOptTok ("-" ++ x) = true ∧ isOptTok ("--" ++ x) = true ∧
      candidateOf ("--" ++ x) = x ∧
      (x.data.head? ≠ some '-' → candidateOf ("-" ++ x) = x)) := by
  refine ⟨?_, ?_, ?_⟩
  · intro o cand
    exact List.isPrefixOf_iff_prefix
  · intro o
    show List.isPrefixOf ("" : String).data o.name.data = true
    have h0 : ("" : String).data = [] := rfl
    rw [h0]
    simp [List.isPrefixOf]
  · intro x
    exact ⟨isOptTok_one_dash x, isOptTok_two_dashes x, candidateOf_two_dashes x,
      candidateOf_one_dash x⟩

/-- Claim C2, witness: the amended statement instantiated at the test
registry's names. -/
theorem c2_witness :
    (abcIntOpt.matches "ab" = true ↔ ("ab" : String).data <+: ("abc" : String).data) ∧
    integerOpt.matches "" = true ∧
    isOptTok ("-" ++ "boolean") = true ∧
    candidateOf ("--" ++ "boolean") = "boolean" ∧
    candidateOf ("-" ++ "boolean") = "boolean" :=
  ⟨c2_matches_prefix_and_candidates.1 abcIntOpt "ab",
   c2_matches_prefix_and_candidates.2.1 integerOpt,
   (c2_matches_prefix_and_candidates.2.2 "boolean").1,
   (c2_matches_prefix_and_candidates.2.2 "boolean").2.2.1,
   (c2_matches_prefix_and_candidates.2.2 "boolean").2.2.2 (by decide)⟩

/-- Claim C3, counterexample: for the token `-a` against two registered
switches `ab` and `abc` (both match the candidate `a`), the scan coerces
BOTH entries — the later registry entry is also coerced, refuting
"no later registry entry is coerced for the same token". -/
theorem c3_cex_later_switch_also_coerced :
    abSwitch.matches "a" = true ∧ abcSwitch.matches "a" = true ∧
    parse [abSwitch, abcSwitch] ["p", "-a"] stSw0 =
      .ok ⟨[Val.vBool true, Val.vBool true], []⟩ := by
  decide

/-- Claim C3 (amended): the entries coerced for one option token are
exactly: every matching entry in registration order up to and including
the first matching entry that requires a parameter while a next slot
exists (the loop's `break`); matching switch entries before that point
are all coerced, and entries after the break point are not. -/
theorem c3_coerced_entries_characterization (opts : List OptionRecord)
    (cand : String) (next : Option String) (st st' : ParserState) (f c : Bool)
    (h : scanRegistry opts 0 cand next st false = .ok (st', f, c)) :
    st'.store = applyWrites next st.store (coercedWrites cand next opts 0) :=
  scanRegistry_writes h

/-- Claim C3, witness: the characterization instantiated at the two-switch
counterexample registry. -/
theorem c3_witness :
    scanRegistry [abSwitch, abcSwitch] 0 "a" none stSw0 false =
      .ok (⟨[Val.vBool true, Val.vBool true], []⟩, true, false) ∧
    (⟨[Val.vBool true, Val.vBool true], []⟩ : ParserState).store =
      applyWrites none stSw0.store (coercedWrites "a" none [abSwitch, abcSwitch] 0) :=
  ⟨by decide,
   c3_coerced_entries_characterization [abSwitch, abcSwitch] "a" none stSw0
     ⟨[Val.vBool true, Val.vBool true], []⟩ true false (by decide)⟩

/-- Claim C4, counterexample: a whitespace-only (non-empty) raw token for
an integer option fails with `ParseFailure`, not `EmptyValue`: the
extraction attempt on the whitespace sets `failbit`. -/
theorem c4_cex_whitespace_gives_parse_failure :
    parse [integerOpt] ["program", "--integer", " "] stInt0 =
      .error (.ParseFailure, stInt0) ∧
    ErrKind.ParseFailure ≠ ErrKind.EmptyValue := by
  decide

/-- Claim C4, witness: the amended dichotomy instantiated at `""` and a
whitespace-only token. -/
theorem c4_witness :
    coerce .strOpt (some "") = .error .EmptyValue ∧
    coerce .intOpt (some " ") = .error .ParseFailure :=
  ⟨(c4_empty_vs_whitespace .strOpt (by decide) "").1 rfl,
   (c4_empty_vs_whitespace .intOpt (by decide) " ").2 (by decide) (by decide)⟩

/-- Claim C5, counterexample: a raw token containing whitespace is NOT
stored verbatim in a string destination: `"a b"` as one argv slot scans
as two whitespace-separated words and fails with `TooManyArguments`. -/
theorem c5_cex_token_with_space_fails :
    parse [stringOpt] ["p", "--string", "a b"] stStr0 =
      .error (.TooManyArguments, stStr0) := by
  decide

/-- Claim C5, witness: a whitespace-free token is stored verbatim. -/
theorem c5_witness :
    coerce .strOpt (some "that_is_not_my_name") =
      .ok (.vStr "that_is_not_my_name") :=
  c5_wordlike_token_stored_verbatim "that_is_not_my_name" (by decide) (by decide)

end ParseOpts

namespace ParseOpts

/-- Claim C6: after a successful parse, the store cell of every
registered option whose name is matched by none of the pass's candidate
names keeps its pre-parse, caller-initialized value; coercion only ever
writes through `writeDst` into the external store, never into the
registry, which `parse` leaves untouched by construction. -/
theorem c6_unmatched_destinations_unchanged (opts : List OptionRecord)
    (argv : List String) (st st₁ : ParserState)
    (h : parse opts argv st = .ok st₁)
    (i : Nat) (o : OptionRecord) (ho : opts[i]? = some o)
    (hc : ∀ cnd ∈ candidatesSpec opts (argv.drop 1), o.matches cnd = false) :
    st₁.store[i]? = st.store[i]? :=
  parseTokens_frame opts (argv.drop 1) st st₁ h i o ho hc

/-- Claim C6, witness: parsing `--integer 7` against the registry
`[integer, missing]` leaves the unmentioned switch's cell unchanged. -/
theorem c6_witness :
    parse [integerOpt, missingSwitch] ["p", "--integer", "7"] stIM0 =
      .ok ⟨[Val.vInt 7, Val.vBool false], []⟩ ∧
    (⟨[Val.vInt 7, Val.vBool false], []⟩ : ParserState).store[1]? = stIM0.store[1]? :=
  ⟨by decide,
   c6_unmatched_destinations_unchanged [integerOpt, missingSwitch]
     ["p", "--integer", "7"] stIM0 ⟨[Val.vInt 7, Val.vBool false], []⟩
     (by decide) 1 missingSwitch (by decide) (by decide)⟩

/-- Claim C7, counterexample: `non_option_args_` is never cleared, so a
second `parse` call accumulates onto the first call's positionals:
after parsing `p a` and then `p b` on the same session, `non_option_args`
is `["a", "b"]`, not just the most recent call's `["b"]`. -/
theorem c7_cex_args_accumulate_across_parses :
    parse [] ["p", "a"] ⟨[], []⟩ = .ok ⟨[], ["a"]⟩ ∧
    parse [] ["p", "b"] ⟨[], ["a"]⟩ = .ok ⟨[], ["a", "b"]⟩ ∧
    non_option_args ⟨[], ["a", "b"]⟩ ≠ ["b"] := by
  decide

/-- Claim C7 (amended): `non_option_args` holds the positionals
accumulated across all parse calls of the session (the container is never
cleared); each successful call appends exactly the non-empty argv tokens
(from index 1 on) that do not begin with a dash and are not consumed as
option values, verbatim and in left-to-right order. -/
theorem c7_non_option_args_accumulate (opts : List OptionRecord)
    (argv : List String) (st st₁ : ParserState)
    (h : parse opts argv st = .ok st₁) :
    non_option_args st₁ = non_option_args st ++ positionalsSpec opts (argv.drop 1) :=
  parseTokens_args opts (argv.drop 1) st st₁ h

/-- Claim C7, witness: the integration test's command line. -/
theorem c7_witness :
    parse [booleanSwitch] ["program_name", "--boolean", "ignored"]
      ⟨[Val.vBool false], []⟩ = .ok ⟨[Val.vBool true], ["ignored"]⟩ ∧
    non_option_args (⟨[Val.vBool true], ["ignored"]⟩ : ParserState) =
      non_option_args (⟨[Val.vBool false], []⟩ : ParserState) ++
        positionalsSpec [booleanSwitch]
          (["program_name", "--boolean", "ignored"].drop 1) :=
  ⟨by decide,
   c7_non_option_args_accumulate [booleanSwitch]
     ["program_name", "--boolean", "ignored"] ⟨[Val.vBool false], []⟩
     ⟨[Val.vBool true], ["ignored"]⟩ (by decide)⟩

/-- Claim C8, witness: `--integer 5` succeeds, then the unrecognized
`--nope` aborts with the partially updated store kept, and the token
`after` is never processed. -/
theorem c8_witness :
    parseTokens [integerOpt] ["--integer", "5"] stInt0 = .ok ⟨[Val.vInt 5], []⟩ ∧
    parseTokens [integerOpt] (["--integer", "5"] ++ "--nope" :: ["after"]) stInt0 =
      .error (.UnrecognizedOption, ⟨[Val.vInt 5], []⟩) :=
  ⟨by decide,
   (c8_error_aborts_without_rollback [integerOpt] ["--integer", "5"] "--nope"
     ["after"] stInt0 ⟨[Val.vInt 5], []⟩ ⟨[Val.vInt 5], []⟩ .UnrecognizedOption
     (by decide) (by decide) (by decide)).1⟩

/-- Claim C10: a matched parameter-taking option consumes the next argv
slot unconditionally — whatever its content (dashes, another option's
name) — and parsing continues after it: the slot is only ever passed to
the option's coercion, never classified as an option reference or added
to the positionals. -/
theorem c10_next_slot_consumed_unconditionally (opts : List OptionRecord)
    (t v : String) (rest : List String) (st : ParserState)
    (hopt : isOptTok t = true)
    (hc : consumesNext opts (candidateOf t) = true) :
    parseTokens opts (t :: v :: rest) st =
      match scanRegistry opts 0 (candidateOf t) (some v) st false with
      | .error e => .error e
      | .ok (st', _, _) => parseTokens opts rest st' := by
  have ht : t ≠ "" := isOptTok_ne_empty hopt
  rw [parseTokens_two, if_neg ht, if_pos hopt]
  unfold stepOption
  cases heq : scanRegistry opts 0 (candidateOf t) (some v) st false with
  | error e => rfl
  | ok p =>
    obtain ⟨st', f, c⟩ := p
    have hf : f = true := by
      rw [scanRegistry_found heq]
      simp [consumesNext_found hc]
    have hcc : c = true := by
      rw [scanRegistry_consumed heq]
      simp [hc]
    subst hf
    subst hcc
    rfl

/-- Claim C10, witness: `--integer --missing` (the `found option instead`
test): the slot `--missing` is consumed as the integer's raw value and
fails its coercion with `ParseFailure`, rather than being treated as an
option. -/
theorem c10_witness :
    isOptTok "--integer" = true ∧
    consumesNext [integerOpt, missingSwitch] (candidateOf "--integer") = true ∧
    parseTokens [integerOpt, missingSwitch] ["--integer", "--missing"] stIM0 =
      .error (.ParseFailure, stIM0) :=
  ⟨by decide, by decide,
   (c10_next_slot_consumed_unconditionally [integerOpt, missingSwitch]
     "--integer" "--missing" [] stIM0 (by decide) (by decide)).trans (by decide)⟩

end ParseOpts

namespace ParseOpts

/-- Claim C9: `usage()` emits the session description, a blank line,
`OPTIONS:`, a blank line, then one entry per option in registration
order; an entry pads with spaces to break column 20 when at least one
alignment column remains, and otherwise puts the description on the next
line behind exactly 20 spaces; for the three test options this produces
exactly the §8 string. -/
theorem c9_usage_layout :
    (∀ o : OptionRecord,
      (o.name.length + 4 < 20 →
        usageEntry o = "  --" ++ o.name ++
          String.mk (List.replicate (20 - (o.name.length + 4)) ' ') ++
          o.description ++ "\n") ∧
      (20 ≤ o.name.length + 4 →
        usageEntry o = "  --" ++ o.name ++
          ("\n" ++ String.mk (List.replicate 20 ' ')) ++
          o.description ++ "\n")) ∧
    (∀ desc : String,
      usage desc [usageOne, usageTwo, usageTwenty] =
        desc ++ "\n\nOPTIONS:\n\n  --one             This is the first option\n  --two             This is the second option\n  --twenty_letters_long\n                    This is the third option\n") := by
  constructor
  · intro o
    constructor
    · intro hlt
      have hpos : (0 : Int) < 20 - ((o.name.length : Int) + 4) := by omega
      have htn : ((20 : Int) - ((o.name.length : Int) + 4)).toNat =
          20 - (o.name.length + 4) := by omega
      simp only [usageEntry, if_pos hpos, htn]
    · intro hge
      have hneg : ¬ ((0 : Int) < 20 - ((o.name.length : Int) + 4)) := by omega
      simp only [usageEntry, if_neg hneg]
  · intro desc
    show (((desc ++ "\n\nOPTIONS:\n\n") ++ usageEntry usageOne) ++
        usageEntry usageTwo) ++ usageEntry usageTwenty = _
    rw [String.append_assoc desc "\n\nOPTIONS:\n\n" (usageEntry usageOne),
      String.append_assoc desc _ (usageEntry usageTwo),
      String.append_assoc desc _ (usageEntry usageTwenty)]
    congr 1

set_option maxRecDepth 8000 in
/-- Claim C9, witness: both layout branches and the concrete usage
string of the `Check Usage` test. -/
theorem c9_witness :
    usageEntry usageOne = "  --one             This is the first option\n" ∧
    usageEntry usageTwenty =
      "  --twenty_letters_long\n                    This is the third option\n" ∧
    usage "Tool description" [usageOne, usageTwo, usageTwenty] =
      "Tool description\n\nOPTIONS:\n\n  --one             This is the first option\n  --two             This is the second option\n  --twenty_letters_long\n                    This is the third option\n" :=
  ⟨((c9_usage_layout.1 usageOne).1 (by decide)).trans (by decide),
   ((c9_usage_layout.1 usageTwenty).2 (by decide)).trans (by decide),
   (c9_usage_layout.2 "Tool description").trans (by decide)⟩

end ParseOpts
